import Mathlib

/-!
Verification of the point-in-polygon engine of oceanmesh
(src/oceanmesh/inpoly.py: the public function inpoly and the
crossing-number kernel _inpoly).

The code is embedded shallowly over exact rationals: every numpy array
becomes a Lean list, float arithmetic becomes arithmetic in ℚ, and the
two places where the Python code can raise (an IndexError while building
the default edge array or while indexing node by an edge column, and a
ValueError from a reduction over an empty array) become Option failures
in the same order in which the original statements execute.
-/

/-- A planar point, the row type of the VERT and NODE arrays. -/
abbrev Pt := ℚ × ℚ

/-- Minimum of a list of rationals; the Python np.nanmin (no NaN exists in ℚ).
Meaningful only for nonempty lists; inpoly fails before calling it on an
empty list, mirroring the ValueError numpy raises there. -/
def listMin : List ℚ → ℚ
  | [] => 0
  | x :: xs => xs.foldl min x

/-- Maximum of a list of rationals; the Python np.nanmax / np.amax. -/
def listMax : List ℚ → ℚ
  | [] => 0
  | x :: xs => xs.foldl max x

/-- The bounding-box mask of inpoly lines 84-91: a query point is retained
iff it lies inside the closed bounding box of the node array (all four
comparisons inclusive). -/
def bboxPred (node : List Pt) (p : Pt) : Bool :=
  decide (listMin (node.map Prod.fst) ≤ p.1) &&
  decide (listMin (node.map Prod.snd) ≤ p.2) &&
  decide (p.1 ≤ listMax (node.map Prod.fst)) &&
  decide (p.2 ≤ listMax (node.map Prod.snd))

/-- inpoly lines 68-76: when the EDGE argument is omitted, synthesize it.
Row i of np.zeros((M,2)) becomes (i, i+1) for i < M-1 through the two
slice assignments, and the last row becomes (M-1, 0).  With M = 0 the
assignment edge[-1, 0] raises IndexError, hence none. -/
def defaultEdges (m : ℕ) : Option (List (ℕ × ℕ)) :=
  if m = 0 then none
  else some ((List.range m).map fun i => if i + 1 < m then (i, i + 1) else (m - 1, 0))

/-- Coordinate swap of one point, used for the axis flip of lines 102-104. -/
def swapPt (p : Pt) : Pt := (p.2, p.1)

/-- inpoly line 102: the axis flip fires when the x-extent of the pruned
query set exceeds its y-extent (ddxy[0] > ddxy[1]). -/
def flipNeeded (vert node : List Pt) : Bool :=
  let vert1 := vert.filter (bboxPred node)
  decide (listMax (vert1.map Prod.snd) - listMin (vert1.map Prod.snd) <
          listMax (vert1.map Prod.fst) - listMin (vert1.map Prod.fst))

/-- The node array as the kernel sees it: coordinate-swapped when the axis
flip of lines 102-104 fires, unchanged otherwise. -/
def nodeAfterFlip (vert node : List Pt) : List Pt :=
  if flipNeeded vert node then node.map swapPt else node

/-- The pruned query array as the kernel sees it (lines 93 and 102-103). -/
def vertAfterFlip (vert node : List Pt) : List Pt :=
  if flipNeeded vert node then (vert.filter (bboxPred node)).map swapPt
  else vert.filter (bboxPred node)

/-- lbar of line 100: half the sum of the two extents of the bounding box
of the pruned query set. -/
def lbarOf (vert node : List Pt) : ℚ :=
  let vert1 := vert.filter (bboxPred node)
  (listMax (vert1.map Prod.fst) - listMin (vert1.map Prod.fst) +
   (listMax (vert1.map Prod.snd) - listMin (vert1.map Prod.snd))) / 2

/-- Line 107: edge row e needs its endpoints swapped when the y of its
second node is below the y of its first node. -/
def needsSwap (node : List Pt) (e : ℕ × ℕ) : Bool :=
  decide ((node.getD e.2 (0, 0)).2 < (node.getD e.1 (0, 0)).2)

/-- Lines 107-109: reorient every edge so that the second endpoint has the
larger (or equal) y. -/
def orientEdges (node : List Pt) (edge : List (ℕ × ℕ)) : List (ℕ × ℕ) :=
  edge.map fun e => if needsSwap node e then (e.2, e.1) else e

/-- Both columns of every edge row index into the node array.  When this
fails, the fancy indexing node[edge[:, 1], 1] of line 107 raises
IndexError. -/
def edgesValid (node : List Pt) (edge : List (ℕ × ℕ)) : Bool :=
  edge.all fun e => decide (e.1 < node.length) && decide (e.2 < node.length)

/-- Stable insertion of index i into an index list ordered by the key y:
i goes after every already-placed index with key ≤ key of i. -/
def argInsert (y : ℕ → ℚ) (i : ℕ) : List ℕ → List ℕ
  | [] => [i]
  | j :: rest => if y j ≤ y i then j :: argInsert y i rest else i :: j :: rest

/-- Line 111: ivec = np.argsort(vert[:, 1]), a permutation of
0..vert.length-1 that sorts the query points by y. -/
def argsortY (v : List Pt) : List ℕ :=
  (List.range v.length).foldl (fun acc i => argInsert (fun j => (v.getD j (0, 0)).2) i acc) []

/-- Line 112: vert = vert[ivec]. -/
def sortByIdx (v : List Pt) (ivec : List ℕ) : List Pt :=
  ivec.map fun i => v.getD i (0, 0)

/-- Lines 121-122: stat[ivec] = stmp, i.e. result position ivec[k] receives
value k of the kernel output. -/
def unsortScatter (ivec : List ℕ) (vals : List Bool) (n : ℕ) : List Bool :=
  (List.range n).map fun i => vals.getD (ivec.findIdx fun j => j == i) false

/-- Lines 124-125: STAT[mask] = stat.  Positions where the mask is false
keep their initial False; positions where it is true consume the next
value of vals in order. -/
def maskScatter : List Bool → List Bool → List Bool
  | [], _ => []
  | b :: ms, vs => if b then vs.headD false :: maskScatter ms vs.tail else false :: maskScatter ms vs

/-- np.searchsorted(ys, v, "left"): binary search driven by strict
comparison ys[mid] < v.  The fuel argument only bounds the recursion
depth; ys.length steps always suffice because hi - lo at least halves. -/
def searchsortedLeftGo (ys : List ℚ) (v : ℚ) : ℕ → ℕ → ℕ → ℕ
  | 0, lo, _ => lo
  | fuel + 1, lo, hi =>
    if lo < hi then
      if ys.getD ((lo + hi) / 2) 0 < v then searchsortedLeftGo ys v fuel ((lo + hi) / 2 + 1) hi
      else searchsortedLeftGo ys v fuel lo ((lo + hi) / 2)
    else lo

/-- Line 162: ione = np.searchsorted(vert[:, 1], YMIN, "left"). -/
def searchsortedLeft (ys : List ℚ) (v : ℚ) : ℕ :=
  searchsortedLeftGo ys v ys.length 0 ys.length

/-- np.searchsorted(ys, v, "right"): binary search driven by ys[mid] ≤ v. -/
def searchsortedRightGo (ys : List ℚ) (v : ℚ) : ℕ → ℕ → ℕ → ℕ
  | 0, lo, _ => lo
  | fuel + 1, lo, hi =>
    if lo < hi then
      if ys.getD ((lo + hi) / 2) 0 ≤ v then searchsortedRightGo ys v fuel ((lo + hi) / 2 + 1) hi
      else searchsortedRightGo ys v fuel lo ((lo + hi) / 2)
    else lo

/-- Line 163: itwo = np.searchsorted(vert[:, 1], YMAX, "right"). -/
def searchsortedRight (ys : List ℚ) (v : ℚ) : ℕ :=
  searchsortedRightGo ys v ys.length 0 ys.length

/-- Lines 152-163 for one edge: the half-open candidate window
[ione, itwo) of indices into the y-sorted query array, obtained by the
two binary searches against ymin = yone - veps and ymax = ytwo + veps. -/
def edgeWindow (vert node : List Pt) (veps : ℚ) (e : ℕ × ℕ) : ℕ × ℕ :=
  (searchsortedLeft (vert.map Prod.snd) ((node.getD e.1 (0, 0)).2 - veps),
   searchsortedRight (vert.map Prod.snd) ((node.getD e.2 (0, 0)).2 + veps))

/-- Lines 182-215, the body of the inner loop of _inpoly for one candidate
point p with current flags sb = (stat[j], bnds[j]): the boundary latch
skip, the edge-bbox tests on x, the tolerance on-edge test, the two exact
endpoint matches, and the two crossing-number toggles. -/
def pointUpdate (node : List Pt) (feps veps : ℚ) (e : ℕ × ℕ) (p : Pt)
    (sb : Bool × Bool) : Bool × Bool :=
  let xone := (node.getD e.1 (0, 0)).1
  let yone := (node.getD e.1 (0, 0)).2
  let xtwo := (node.getD e.2 (0, 0)).1
  let ytwo := (node.getD e.2 (0, 0)).2
  let xmin := min xone xtwo
  let xmax := max xone xtwo + veps
  let xdel := xtwo - xone
  let ydel := ytwo - yone
  if sb.2 then sb
  else
    if xmin ≤ p.1 then
      if p.1 ≤ xmax then
        let mul1 := ydel * (p.1 - xone)
        let mul2 := xdel * (p.2 - yone)
        if |mul2 - mul1| ≤ feps then (true, true)
        else if p.2 = yone ∧ p.1 = xone then (true, true)
        else if p.2 = ytwo ∧ p.1 = xtwo then (true, true)
        else if mul1 < mul2 ∧ yone ≤ p.2 ∧ p.2 < ytwo then (!sb.1, sb.2)
        else sb
      else sb
    else if yone ≤ p.2 ∧ p.2 < ytwo then (!sb.1, sb.2) else sb

/-- The fate of position j of the state arrays under one edge: positions
inside the candidate window [ione, itwo) of the edge go through the loop
body pointUpdate, all others are untouched. -/
def stepPoint (vert node : List Pt) (feps veps : ℚ) (e : ℕ × ℕ)
    (sb : List Bool × List Bool) (j : ℕ) : Bool × Bool :=
  if (edgeWindow vert node veps e).1 ≤ j ∧ j < (edgeWindow vert node veps e).2 then
    pointUpdate node feps veps e (vert.getD j (0, 0)) (sb.1.getD j false, sb.2.getD j false)
  else (sb.1.getD j false, sb.2.getD j false)

/-- One iteration of the outer loop of _inpoly (lines 166-215).  The
iterations of the Python inner loop are independent (iteration j reads
and writes only position j), so the loop is rendered as a map over all
positions. -/
def stepEdge (vert node : List Pt) (feps veps : ℚ) (e : ℕ × ℕ)
    (sb : List Bool × List Bool) : List Bool × List Bool :=
  ((List.range vert.length).map fun j => (stepPoint vert node feps veps e sb j).1,
   (List.range vert.length).map fun j => (stepPoint vert node feps veps e sb j).2)

/-- The crossing-number kernel _inpoly (lines 130-217): starting from
all-false stat and bnds arrays, process the edges in order. -/
def _inpoly (vert node : List Pt) (edge : List (ℕ × ℕ)) (ftol lbar : ℚ) :
    List Bool × List Bool :=
  let feps := ftol * (lbar * lbar)
  let veps := ftol * lbar
  edge.foldl (fun sb e => stepEdge vert node feps veps e sb)
    (List.replicate vert.length false, List.replicate vert.length false)

/-- The total tail of inpoly once every fallible step has succeeded:
prune (line 93), flip (lines 102-104), orient (lines 107-109), sort
(lines 111-112), kernel (line 115), unsort (lines 118-122) and scatter
back through the bbox mask (lines 124-125). -/
def inpolyCore (vert node : List Pt) (edge : List (ℕ × ℕ)) (ftol : ℚ) :
    List Bool × List Bool :=
  let mask := vert.map (bboxPred node)
  let vert2 := vertAfterFlip vert node
  let node2 := nodeAfterFlip vert node
  let oriented := orientEdges node2 edge
  let ivec := argsortY vert2
  let vert3 := sortByIdx vert2 ivec
  let res := _inpoly vert3 node2 oriented ftol (lbarOf vert node)
  (maskScatter mask (unsortScatter ivec res.1 vert2.length),
   maskScatter mask (unsortScatter ivec res.2 vert2.length))

/-- The public operation inpoly (lines 5-127).  The Option failures are
the run-time errors of the Python code in execution order: IndexError
building the default edges when M = 0 (line 75), ValueError from
np.nanmin over an empty node array (lines 84-91), ValueError from
np.amin over an empty pruned query array (line 96), IndexError from an
out-of-range edge index at line 107.  No other statement can fail. -/
def inpoly (vert node : List Pt) (edge : Option (List (ℕ × ℕ))) (ftol : ℚ) :
    Option (List Bool × List Bool) :=
  match (match edge with | none => defaultEdges node.length | some es => some es) with
  | none => none
  | some es =>
    if node.isEmpty then none
    else if (vert.filter (bboxPred node)).isEmpty then none
    else if edgesValid (nodeAfterFlip vert node) es then some (inpolyCore vert node es ftol)
    else none

/-- The caller-visible contents of an explicitly supplied edge array after
inpoly returns (or raises).  np.asarray at line 78 does not copy a numpy
array, and lines 107-109 write the swapped rows back into it in place, so
after any call that reaches line 109 the caller's array holds the
oriented edges; calls that fail before line 107 leave it untouched. -/
def edgeAfterCall (vert node : List Pt) (edge : List (ℕ × ℕ)) : List (ℕ × ℕ) :=
  if node.isEmpty then edge
  else if (vert.filter (bboxPred node)).isEmpty then edge
  else if edgesValid (nodeAfterFlip vert node) edge then orientEdges (nodeAfterFlip vert node) edge
  else edge

/-! ### Helper lemmas -/

lemma nodeAfterFlip_length (vert node : List Pt) :
    (nodeAfterFlip vert node).length = node.length := by
  unfold nodeAfterFlip
  split <;> simp

lemma edgesValid_congr_length (node nodeB : List Pt) (es : List (ℕ × ℕ))
    (h : node.length = nodeB.length) : edgesValid node es = edgesValid nodeB es := by
  unfold edgesValid
  rw [h]

lemma edgesValid_nodeAfterFlip (vert node : List Pt) (es : List (ℕ × ℕ)) :
    edgesValid (nodeAfterFlip vert node) es = edgesValid node es :=
  edgesValid_congr_length _ _ _ (by rw [nodeAfterFlip_length])

lemma defaultEdges_valid (m : ℕ) (node : List Pt) (es : List (ℕ × ℕ))
    (hm : node.length = m) (h : defaultEdges m = some es) : edgesValid node es = true := by
  unfold defaultEdges at h
  split at h
  · exact absurd h (by simp)
  · rename_i hm0
    rw [Option.some.injEq] at h
    subst h
    rw [edgesValid, List.all_eq_true]
    intro e he
    rw [List.mem_map] at he
    obtain ⟨i, hi, rfl⟩ := he
    rw [List.mem_range] at hi
    split <;> simp <;> omega

lemma maskScatter_length (m v : List Bool) : (maskScatter m v).length = m.length := by
  induction m generalizing v with
  | nil => rfl
  | cons b ms ih => cases b <;> simp [maskScatter, ih]

lemma headD_eq_getD (v : List Bool) : v.headD false = v.getD 0 false := by
  cases v <;> rfl

lemma tail_getD (v : List Bool) (k : ℕ) : v.tail.getD k false = v.getD (k + 1) false := by
  cases v <;> rfl

lemma maskScatter_getD (m v : List Bool) (i : ℕ) :
    (maskScatter m v).getD i false =
      if m.getD i false then v.getD ((m.take i).countP (fun b => b)) false else false := by
  induction m generalizing v i with
  | nil => simp [maskScatter]
  | cons b ms ih =>
    cases i with
    | zero =>
      cases b <;> cases v <;> simp [maskScatter]
    | succ i =>
      cases b with
      | false => simpa [maskScatter, List.countP_cons] using ih v i
      | true => simpa [maskScatter, List.countP_cons, tail_getD] using ih v.tail i

lemma map_range_getD (n : ℕ) (f : ℕ → Bool) (j : ℕ) :
    ((List.range n).map f).getD j false = if j < n then f j else false := by
  by_cases h : j < n
  · rw [if_pos h, List.getD_eq_getElem _ _ (by simpa using h)]
    simp
  · rw [if_neg h, List.getD_eq_default]
    simpa using Nat.le_of_not_lt h

lemma replicate_getD (n : ℕ) (j : ℕ) : (List.replicate n false).getD j false = false := by
  by_cases h : j < n
  · rw [List.getD_eq_getElem _ _ (by simpa using h)]
    simp
  · rw [List.getD_eq_default]
    simpa using Nat.le_of_not_lt h

/-- Projecting a successful inpoly call down to inpolyCore. -/
lemma inpoly_eq_some (vert node : List Pt) (eo : Option (List (ℕ × ℕ))) (ftol : ℚ)
    (S B : List Bool) (h : inpoly vert node eo ftol = some (S, B)) :
    ∃ es, inpolyCore vert node es ftol = (S, B) := by
  cases eo with
  | none =>
    cases hde : defaultEdges node.length with
    | none => rw [inpoly, hde] at h; exact absurd h (by simp)
    | some des =>
      simp only [inpoly, hde] at h
      split at h
      · exact absurd h (by simp)
      · split at h
        · exact absurd h (by simp)
        · split at h
          · exact ⟨des, by rw [Option.some.injEq] at h; rw [h]⟩
          · exact absurd h (by simp)
  | some es =>
    simp only [inpoly] at h
    split at h
    · exact absurd h (by simp)
    · split at h
      · exact absurd h (by simp)
      · split at h
        · exact ⟨es, by rw [Option.some.injEq] at h; rw [h]⟩
        · exact absurd h (by simp)

/-! ### C7: the synthesized default edge list is the closed cyclic chain -/

/-- C7: for M ≥ 1 nodes and an omitted edge argument, the synthesized edge
list is exactly the closed cyclic chain (0,1), (1,2), ..., (M-2,M-1),
(M-1,0). -/
theorem defaultEdges_closed_chain (m : ℕ) (h : 1 ≤ m) :
    defaultEdges m =
      some (((List.range (m - 1)).map fun i => (i, i + 1)) ++ [(m - 1, 0)]) := by
  obtain ⟨k, rfl⟩ : ∃ k, m = k + 1 := ⟨m - 1, by omega⟩
  rw [defaultEdges, if_neg (by omega : ¬(k + 1 = 0)), Option.some.injEq]
  rw [List.range_succ, List.map_append, Nat.add_sub_cancel]
  congr 1
  · apply List.map_congr_left
    intro i hi
    rw [List.mem_range] at hi
    rw [if_pos (by omega)]
  · simp

/-- Witness for C7 at M = 4. -/
theorem defaultEdges_closed_chain_witness :
    defaultEdges 4 = some [(0, 1), (1, 2), (2, 3), (3, 0)] :=
  (defaultEdges_closed_chain 4 (by norm_num)).trans (by rfl)

/-! ### C1: the code has no InvalidInput validation -/

/-- C1 counterexample: a call with a single node (M = 1 < 2) and the edge
argument omitted does not fail at all; it returns a full result pair, so
no InvalidInput validation of the node count exists. -/
theorem inpoly_single_node_succeeds_cex :
    inpoly [((0 : ℚ), (0 : ℚ))] [((0 : ℚ), (0 : ℚ))] none (5 / 100000000000000) =
      some ([true], [true]) := by
  norm_num [inpoly, bboxPred, listMin, listMax, defaultEdges, inpolyCore, vertAfterFlip,
    nodeAfterFlip, flipNeeded, lbarOf, orientEdges, needsSwap, edgesValid, argsortY, argInsert,
    sortByIdx, _inpoly, stepEdge, stepPoint, edgeWindow, searchsortedLeft, searchsortedRight,
    searchsortedLeftGo, searchsortedRightGo, pointUpdate, unsortScatter, maskScatter, swapPt,
    List.range_succ, List.foldl_append, List.findIdx_cons, List.getD, List.headD]

/-- C1 amended: inpoly performs no explicit validation and raises no
InvalidInput.  Degenerate inputs fail only through the underlying array
errors, before any kernel work: an empty query array or an empty node
array always fails, and an out-of-range edge index in a supplied edge
array always fails. -/
theorem inpoly_no_validation_failures :
    (∀ (node : List Pt) (eo : Option (List (ℕ × ℕ))) (ftol : ℚ),
        inpoly [] node eo ftol = none) ∧
    (∀ (vert : List Pt) (eo : Option (List (ℕ × ℕ))) (ftol : ℚ),
        inpoly vert [] eo ftol = none) ∧
    (∀ (vert node : List Pt) (es : List (ℕ × ℕ)) (ftol : ℚ),
        edgesValid node es = false → inpoly vert node (some es) ftol = none) := by
  refine ⟨fun node eo ftol => ?_, fun vert eo ftol => ?_, fun vert node es ftol h => ?_⟩
  · cases eo with
    | none =>
      cases hde : defaultEdges node.length with
      | none => simp [inpoly, hde]
      | some des => simp [inpoly, hde]
    | some es => simp [inpoly]
  · cases eo with
    | none => simp [inpoly, defaultEdges]
    | some es => simp [inpoly]
  · have h2 : edgesValid (nodeAfterFlip vert node) es = false := by
      rwa [edgesValid_nodeAfterFlip]
    simp [inpoly, h2]

/-- Witness for C1: a concrete out-of-range edge index makes the call
fail. -/
theorem inpoly_no_validation_failures_witness :
    edgesValid [((0 : ℚ), (0 : ℚ))] [(5, 0)] = false ∧
      inpoly [((0 : ℚ), (0 : ℚ))] [((0 : ℚ), (0 : ℚ))] (some [(5, 0)]) 1 = none :=
  ⟨by decide, inpoly_no_validation_failures.2.2 _ _ _ _ (by decide)⟩

/-! ### C3: success and failure behaviour over valid inputs -/

/-- C3 counterexample: with perfectly valid inputs (M = 4 ≥ 2, default
edges in range) but every query point strictly outside the node bounding
box, the pruned query set is empty and the call fails (np.amin over an
empty array raises ValueError at line 96) instead of returning
all-outside results. -/
theorem inpoly_all_pruned_fails_cex :
    inpoly [((5 : ℚ), (5 : ℚ))] [((0 : ℚ), (0 : ℚ)), (1, 0), (1, 1), (0, 1)] none
      (5 / 100000000000000) = none := by
  norm_num [inpoly, bboxPred, listMin, listMax, defaultEdges]

/-- C3 amended: for valid inputs whose pruned query set is nonempty the
call fully succeeds — including when the pruned bounding box has zero
extent (lbar = 0), where the tolerances collapse to zero and only the
exact-equality branches of the kernel can mark boundaries.  (When no
query point survives pruning the call instead fails; see the
counterexample.) -/
theorem inpoly_succeeds_of_pruned_nonempty (vert node : List Pt)
    (eo : Option (List (ℕ × ℕ))) (ftol : ℚ) (hnode : node ≠ [])
    (hpr : vert.filter (bboxPred node) ≠ [])
    (heo : ∀ es, eo = some es → edgesValid node es = true) :
    ∃ p, inpoly vert node eo ftol = some p := by
  have h1 : node.isEmpty = false := by
    cases node with
    | nil => exact absurd rfl hnode
    | cons a as => rfl
  have h2 : (vert.filter (bboxPred node)).isEmpty = false := by
    cases hv : vert.filter (bboxPred node) with
    | nil => exact absurd hv hpr
    | cons a as => rfl
  cases eo with
  | none =>
    obtain ⟨des, hdes⟩ : ∃ des, defaultEdges node.length = some des := by
      rw [defaultEdges, if_neg]
      · exact ⟨_, rfl⟩
      · simpa [List.length_eq_zero] using hnode
    have hval : edgesValid (nodeAfterFlip vert node) des = true := by
      rw [edgesValid_nodeAfterFlip]
      exact defaultEdges_valid _ _ _ rfl hdes
    refine ⟨inpolyCore vert node des ftol, ?_⟩
    simp only [inpoly, hdes, h1, h2, hval]
    simp
  | some es =>
    have hval : edgesValid (nodeAfterFlip vert node) es = true := by
      rw [edgesValid_nodeAfterFlip]
      exact heo es rfl
    refine ⟨inpolyCore vert node es ftol, ?_⟩
    simp only [inpoly, h1, h2, hval]
    simp

/-- Witness for C3: one query point at a polygon corner; the pruned set
is the single point (0,0), so its bounding box has zero extent and
lbar = 0, yet the call succeeds. -/
theorem inpoly_succeeds_of_pruned_nonempty_witness :
    [((0 : ℚ), (0 : ℚ))].filter (bboxPred [((0 : ℚ), (0 : ℚ)), (1, 0), (1, 1), (0, 1)]) ≠ [] ∧
    ∃ p, inpoly [((0 : ℚ), (0 : ℚ))] [((0 : ℚ), (0 : ℚ)), (1, 0), (1, 1), (0, 1)] none
      (5 / 100000000000000) = some p := by
  have hf : [((0 : ℚ), (0 : ℚ))].filter (bboxPred [((0 : ℚ), (0 : ℚ)), (1, 0), (1, 1), (0, 1)]) ≠ [] := by
    norm_num [bboxPred, listMin, listMax, List.filter]
  exact ⟨hf, inpoly_succeeds_of_pruned_nonempty _ _ _ _ (by simp) hf
    (fun es h => Option.noConfusion h)⟩

/-! ### C4: the caller's edge array is mutated in place -/

/-- C4 counterexample: node list ((0,1), (0,0)) with the single caller
edge (0,1).  Node 1 lies below node 0, so lines 107-109 swap the row in
place and the caller's array afterwards holds (1,0), not the (0,1) that
was passed in. -/
theorem inpoly_mutates_edge_cex :
    edgeAfterCall [((0 : ℚ), (0 : ℚ))] [((0 : ℚ), (1 : ℚ)), ((0 : ℚ), (0 : ℚ))] [(0, 1)] ≠
      [(0, 1)] := by
  have : edgeAfterCall [((0 : ℚ), (0 : ℚ))] [((0 : ℚ), (1 : ℚ)), ((0 : ℚ), (0 : ℚ))] [(0, 1)] =
      [(1, 0)] := by
    norm_num [edgeAfterCall, bboxPred, listMin, listMax, nodeAfterFlip, flipNeeded, edgesValid,
      orientEdges, needsSwap, swapPt, List.filter]
  rw [this]
  decide

/-- C4 amended: the query and node arrays are never written back, but a
caller-supplied edge array is reoriented in place: after the call it
holds either its original rows (when the call fails before line 107) or
the oriented rows, and it is left unchanged whenever every row is
already oriented. -/
theorem inpoly_edge_mutation_characterization (vert node : List Pt) (edge : List (ℕ × ℕ)) :
    (edgeAfterCall vert node edge = edge ∨
      edgeAfterCall vert node edge = orientEdges (nodeAfterFlip vert node) edge) ∧
    ((∀ e ∈ edge, needsSwap (nodeAfterFlip vert node) e = false) →
      edgeAfterCall vert node edge = edge) := by
  constructor
  · rw [edgeAfterCall]
    split_ifs <;> simp
  · intro hno
    have horient : orientEdges (nodeAfterFlip vert node) edge = edge := by
      have hid : ∀ e ∈ edge,
          (if needsSwap (nodeAfterFlip vert node) e then (e.2, e.1) else e) = id e := by
        intro e he
        rw [hno e he]
        rfl
      rw [orientEdges, List.map_congr_left hid, List.map_id]
    rw [edgeAfterCall]
    split_ifs <;> simp [horient]

/-- Witness for C4: an already-oriented edge list is left unchanged. -/
theorem inpoly_edge_mutation_characterization_witness :
    (∀ e ∈ [((0 : ℕ), (1 : ℕ))],
      needsSwap (nodeAfterFlip [((0 : ℚ), (0 : ℚ))] [((0 : ℚ), (0 : ℚ)), ((0 : ℚ), (1 : ℚ))]) e
        = false) ∧
    edgeAfterCall [((0 : ℚ), (0 : ℚ))] [((0 : ℚ), (0 : ℚ)), ((0 : ℚ), (1 : ℚ))] [(0, 1)] =
      [(0, 1)] := by
  have hno : ∀ e ∈ [((0 : ℕ), (1 : ℕ))],
      needsSwap (nodeAfterFlip [((0 : ℚ), (0 : ℚ))] [((0 : ℚ), (0 : ℚ)), ((0 : ℚ), (1 : ℚ))]) e
        = false := by
    norm_num [needsSwap, nodeAfterFlip, flipNeeded, bboxPred, listMin, listMax, swapPt,
      List.filter]
  exact ⟨hno, (inpoly_edge_mutation_characterization _ _ _).2 hno⟩

/-! ### C5: the unit-square acceptance test -/

/-- Full evaluation of the pipeline on the unit square with the four
query points of the specification. -/
lemma inpoly_unit_square_eval :
    inpoly [((1 : ℚ) / 2, (1 : ℚ) / 2), (0, 1 / 2), (2, 2), (0, 0)]
      [((0 : ℚ), (0 : ℚ)), (1, 0), (1, 1), (0, 1)] none (5 / 100000000000000) =
      some ([true, true, false, true], [false, true, false, true]) := by
  norm_num [inpoly, bboxPred, listMin, listMax, defaultEdges, inpolyCore, vertAfterFlip,
    nodeAfterFlip, flipNeeded, lbarOf, orientEdges, needsSwap, edgesValid, argsortY, argInsert,
    sortByIdx, _inpoly, stepEdge, stepPoint, edgeWindow, searchsortedLeft, searchsortedRight,
    searchsortedLeftGo, searchsortedRightGo, pointUpdate, unsortScatter, maskScatter, swapPt,
    List.range_succ, List.foldl_append, List.findIdx_cons, List.getD, List.headD]
  decide

/-- C5: on the unit square with default edges and tolerance 5e-14, the
four query points (0.5,0.5), (0,0.5), (2,2), (0,0) classify as
inside = (true, true, false, true) and
on-boundary = (false, true, false, true). -/
theorem inpoly_unit_square :
    inpoly [((1 : ℚ) / 2, (1 : ℚ) / 2), (0, 1 / 2), (2, 2), (0, 0)]
      [((0 : ℚ), (0 : ℚ)), (1, 0), (1, 1), (0, 1)] none (5 / 100000000000000) =
      some ([true, true, false, true], [false, true, false, true]) :=
  inpoly_unit_square_eval

/-! ### C6: bounding-box exclusion -/

lemma bboxPred_iff (node : List Pt) (p : Pt) :
    bboxPred node p = true ↔
      (listMin (node.map Prod.fst) ≤ p.1 ∧ listMin (node.map Prod.snd) ≤ p.2 ∧
       p.1 ≤ listMax (node.map Prod.fst) ∧ p.2 ≤ listMax (node.map Prod.snd)) := by
  simp [bboxPred, and_assoc]

lemma getD_map_bboxPred (vert node : List Pt) (i : ℕ) (hi : i < vert.length) :
    (vert.map (bboxPred node)).getD i false = bboxPred node (vert.getD i (0, 0)) := by
  rw [List.getD_eq_getElem _ _ (by simpa using hi), List.getD_eq_getElem _ _ hi]
  simp

/-- C6: every query point strictly outside the node bounding box receives
inside = false and on-boundary = false (it is excluded by the mask and
never reaches the kernel), while the mask itself retains exactly the
points satisfying the four inclusive comparisons, so points lying
exactly on a bounding-box side are kept. -/
theorem inpoly_bbox_exclusion :
    (∀ (vert node : List Pt) (eo : Option (List (ℕ × ℕ))) (ftol : ℚ) (S B : List Bool),
      inpoly vert node eo ftol = some (S, B) → ∀ i, i < vert.length →
      ((vert.getD i (0, 0)).1 < listMin (node.map Prod.fst) ∨
       (vert.getD i (0, 0)).2 < listMin (node.map Prod.snd) ∨
       listMax (node.map Prod.fst) < (vert.getD i (0, 0)).1 ∨
       listMax (node.map Prod.snd) < (vert.getD i (0, 0)).2) →
      S.getD i false = false ∧ B.getD i false = false) ∧
    (∀ (node : List Pt) (p : Pt), bboxPred node p = true ↔
      (listMin (node.map Prod.fst) ≤ p.1 ∧ listMin (node.map Prod.snd) ≤ p.2 ∧
       p.1 ≤ listMax (node.map Prod.fst) ∧ p.2 ≤ listMax (node.map Prod.snd))) := by
  constructor
  · intro vert node eo ftol S B h i hi hout
    obtain ⟨es, hcore⟩ := inpoly_eq_some vert node eo ftol S B h
    have hS : S = (inpolyCore vert node es ftol).1 := by rw [hcore]
    have hB : B = (inpolyCore vert node es ftol).2 := by rw [hcore]
    have hmask : (vert.map (bboxPred node)).getD i false = false := by
      rw [getD_map_bboxPred vert node i hi]
      rw [← Bool.not_eq_true, bboxPred_iff]
      intro hin
      rcases hout with hc | hc | hc | hc
      · exact absurd hin.1 (not_le.mpr hc)
      · exact absurd hin.2.1 (not_le.mpr hc)
      · exact absurd hin.2.2.1 (not_le.mpr hc)
      · exact absurd hin.2.2.2 (not_le.mpr hc)
    constructor
    · rw [hS]
      simp only [inpolyCore]
      rw [maskScatter_getD, hmask]
      simp
    · rw [hB]
      simp only [inpolyCore]
      rw [maskScatter_getD, hmask]
      simp
  · exact bboxPred_iff

/-- Witness for C6 at the point (2,2) of the unit-square run, which lies
strictly right of and above the box. -/
theorem inpoly_bbox_exclusion_witness :
    ([true, true, false, true] : List Bool).getD 2 false = false ∧
      ([false, true, false, true] : List Bool).getD 2 false = false :=
  inpoly_bbox_exclusion.1 _ _ none _ _ _ inpoly_unit_square_eval 2 (by norm_num)
    (by right; right; left; norm_num [listMax, listMin])

/-! ### C2: output lengths and the boundary-implies-inside invariant -/

lemma pointUpdate_preserve (node : List Pt) (feps veps : ℚ) (e : ℕ × ℕ) (p : Pt)
    (sj bj : Bool) (hinv : bj = true → sj = true) :
    (pointUpdate node feps veps e p (sj, bj)).2 = true →
      (pointUpdate node feps veps e p (sj, bj)).1 = true := by
  rw [pointUpdate]
  split_ifs <;> try simp_all
  all_goals split_ifs <;> simp_all

lemma stepEdge_preserve (vert node : List Pt) (feps veps : ℚ) (e : ℕ × ℕ)
    (sb : List Bool × List Bool)
    (hinv : ∀ j, sb.2.getD j false = true → sb.1.getD j false = true) :
    ∀ j, (stepEdge vert node feps veps e sb).2.getD j false = true →
      (stepEdge vert node feps veps e sb).1.getD j false = true := by
  intro j
  rw [stepEdge]
  rw [map_range_getD, map_range_getD]
  by_cases hj : j < vert.length
  · rw [if_pos hj, if_pos hj, stepPoint]
    by_cases hw : (edgeWindow vert node veps e).1 ≤ j ∧ j < (edgeWindow vert node veps e).2
    · rw [if_pos hw]
      exact pointUpdate_preserve _ _ _ _ _ _ _ (hinv j)
    · rw [if_neg hw]
      exact hinv j
  · rw [if_neg hj]
    intro hfalse
    exact absurd hfalse (by simp)

lemma foldl_stepEdge_preserve (vert node : List Pt) (feps veps : ℚ) :
    ∀ (edge : List (ℕ × ℕ)) (sb : List Bool × List Bool),
      (∀ j, sb.2.getD j false = true → sb.1.getD j false = true) →
      ∀ j, (edge.foldl (fun sb e => stepEdge vert node feps veps e sb) sb).2.getD j false = true →
        (edge.foldl (fun sb e => stepEdge vert node feps veps e sb) sb).1.getD j false = true := by
  intro edge
  induction edge with
  | nil => intro sb hsb j; exact hsb j
  | cons e es ih =>
    intro sb hsb j
    rw [List.foldl_cons]
    exact ih (stepEdge vert node feps veps e sb) (stepEdge_preserve vert node feps veps e sb hsb) j

/-- In the kernel output, every on-boundary point is also inside. -/
lemma kernel_bnds_imp_stat (vert node : List Pt) (edge : List (ℕ × ℕ)) (ftol lbar : ℚ) :
    ∀ j, (_inpoly vert node edge ftol lbar).2.getD j false = true →
      (_inpoly vert node edge ftol lbar).1.getD j false = true := by
  rw [_inpoly]
  exact foldl_stepEdge_preserve vert node _ _ edge _
    (fun j h => absurd h (by simp [replicate_getD]))

/-- C2: whenever inpoly returns, both output arrays have the length N of
the query array (index-aligned to it by the two scatters), and every
position marked on-boundary is also marked inside. -/
theorem inpoly_postconditions (vert node : List Pt) (eo : Option (List (ℕ × ℕ))) (ftol : ℚ)
    (S B : List Bool) (h : inpoly vert node eo ftol = some (S, B)) :
    S.length = vert.length ∧ B.length = vert.length ∧
      ∀ i, B.getD i false = true → S.getD i false = true := by
  obtain ⟨es, hcore⟩ := inpoly_eq_some vert node eo ftol S B h
  have hS : S = (inpolyCore vert node es ftol).1 := by rw [hcore]
  have hB : B = (inpolyCore vert node es ftol).2 := by rw [hcore]
  refine ⟨?_, ?_, ?_⟩
  · rw [hS]
    simp only [inpolyCore]
    rw [maskScatter_length, List.length_map]
  · rw [hB]
    simp only [inpolyCore]
    rw [maskScatter_length, List.length_map]
  · intro i hBi
    rw [hB] at hBi
    rw [hS]
    simp only [inpolyCore] at hBi ⊢
    rw [maskScatter_getD] at hBi
    rw [maskScatter_getD]
    by_cases hm : (vert.map (bboxPred node)).getD i false = true
    · rw [if_pos hm] at hBi ⊢
      rw [unsortScatter, map_range_getD] at hBi ⊢
      by_cases hc : ((vert.map (bboxPred node)).take i).countP (fun b => b) <
          (vertAfterFlip vert node).length
      · rw [if_pos hc] at hBi ⊢
        exact kernel_bnds_imp_stat _ _ _ _ _ _ hBi
      · rw [if_neg hc] at hBi
        exact absurd hBi (by simp)
    · rw [if_neg hm] at hBi
      exact absurd hBi (by simp)

/-- Witness for C2 on the unit-square run. -/
theorem inpoly_postconditions_witness :
    ([true, true, false, true] : List Bool).length =
        [((1 : ℚ) / 2, (1 : ℚ) / 2), (0, 1 / 2), (2, 2), (0, 0)].length ∧
      ([false, true, false, true] : List Bool).length =
        [((1 : ℚ) / 2, (1 : ℚ) / 2), (0, 1 / 2), (2, 2), (0, 0)].length ∧
      ∀ i, ([false, true, false, true] : List Bool).getD i false = true →
        ([true, true, false, true] : List Bool).getD i false = true :=
  inpoly_postconditions _ _ none _ _ _ inpoly_unit_square_eval


/-! ### The branch structure of the loop body, as predicates -/

/-- x-coordinate of the lower endpoint of edge e (xone of line 168). -/
def exone (node : List Pt) (e : ℕ × ℕ) : ℚ := (node.getD e.1 (0, 0)).1

/-- y-coordinate of the lower endpoint of edge e (yone of line 170). -/
def eyone (node : List Pt) (e : ℕ × ℕ) : ℚ := (node.getD e.1 (0, 0)).2

/-- x-coordinate of the upper endpoint of edge e (xtwo of line 169). -/
def extwo (node : List Pt) (e : ℕ × ℕ) : ℚ := (node.getD e.2 (0, 0)).1

/-- y-coordinate of the upper endpoint of edge e (ytwo of line 171). -/
def eytwo (node : List Pt) (e : ℕ × ℕ) : ℚ := (node.getD e.2 (0, 0)).2

/-- mul1 of line 191. -/
def emul1 (node : List Pt) (e : ℕ × ℕ) (p : Pt) : ℚ :=
  (eytwo node e - eyone node e) * (p.1 - exone node e)

/-- mul2 of line 192. -/
def emul2 (node : List Pt) (e : ℕ × ℕ) (p : Pt) : ℚ :=
  (extwo node e - exone node e) * (p.2 - eyone node e)

/-- The disjunction of the three boundary tests of lines 194-207: the
tolerance on-edge test and the two exact endpoint matches. -/
def onEdgeCond (node : List Pt) (feps : ℚ) (e : ℕ × ℕ) (p : Pt) : Prop :=
  |emul2 node e p - emul1 node e p| ≤ feps ∨
  (p.2 = eyone node e ∧ p.1 = exone node e) ∨
  (p.2 = eytwo node e ∧ p.1 = extwo node e)

instance (node : List Pt) (feps : ℚ) (e : ℕ × ℕ) (p : Pt) :
    Decidable (onEdgeCond node feps e p) := by
  unfold onEdgeCond
  infer_instance

/-- Point p gets boundary-latched by edge e: it passes both x-range tests
and one of the three boundary tests. -/
def latchP (node : List Pt) (feps veps : ℚ) (e : ℕ × ℕ) (p : Pt) : Prop :=
  min (exone node e) (extwo node e) ≤ p.1 ∧
  p.1 ≤ max (exone node e) (extwo node e) + veps ∧
  onEdgeCond node feps e p

instance (node : List Pt) (feps veps : ℚ) (e : ℕ × ℕ) (p : Pt) :
    Decidable (latchP node feps veps e p) := by
  unfold latchP
  infer_instance

/-- Point p gets its crossing parity toggled by edge e: either it lies
left of the edge bbox with y in the half-open [yone, ytwo) (line 213), or
it is in x-range, fails every boundary test, and satisfies the
mul1 < mul2 crossing test with y in [yone, ytwo) (line 209). -/
def toggleP (node : List Pt) (feps veps : ℚ) (e : ℕ × ℕ) (p : Pt) : Prop :=
  (¬ min (exone node e) (extwo node e) ≤ p.1 ∧
    eyone node e ≤ p.2 ∧ p.2 < eytwo node e) ∨
  (min (exone node e) (extwo node e) ≤ p.1 ∧
    p.1 ≤ max (exone node e) (extwo node e) + veps ∧
    ¬ onEdgeCond node feps e p ∧
    emul1 node e p < emul2 node e p ∧
    eyone node e ≤ p.2 ∧ p.2 < eytwo node e)

instance (node : List Pt) (feps veps : ℚ) (e : ℕ × ℕ) (p : Pt) :
    Decidable (toggleP node feps veps e p) := by
  unfold toggleP
  infer_instance

set_option maxHeartbeats 3200000 in
/-- The loop body in closed form: skip when latched, latch, toggle, or
leave unchanged. -/
lemma pointUpdate_eq (node : List Pt) (feps veps : ℚ) (e : ℕ × ℕ) (p : Pt) (sj bj : Bool) :
    pointUpdate node feps veps e p (sj, bj) =
      if bj then (sj, bj)
      else if latchP node feps veps e p then (true, true)
      else if toggleP node feps veps e p then (!sj, bj)
      else (sj, bj) := by
  simp only [pointUpdate, latchP, toggleP, onEdgeCond, emul1, emul2, exone, eyone, extwo, eytwo]
  split_ifs <;> first | rfl | tauto

/-! ### C10: a degenerate edge never toggles the inside flag -/

/-- C10: for an edge whose two endpoints have identical coordinates,
yone = ytwo makes the half-open test yone ≤ y < ytwo of both toggle
branches unsatisfiable, so the edge toggles no point's inside flag: the
loop body either leaves the flags unchanged or boundary-latches the
point to (true, true). -/
theorem degenerate_edge_no_toggle (node : List Pt) (feps veps : ℚ) (e : ℕ × ℕ)
    (h : node.getD e.1 (0, 0) = node.getD e.2 (0, 0)) :
    (∀ p : Pt, ¬ toggleP node feps veps e p) ∧
    (∀ (p : Pt) (sj bj : Bool),
      pointUpdate node feps veps e p (sj, bj) = (sj, bj) ∨
      pointUpdate node feps veps e p (sj, bj) = (true, true)) := by
  have hy : eyone node e = eytwo node e := by rw [eyone, eytwo, h]
  have hnot : ∀ p : Pt, ¬ toggleP node feps veps e p := by
    intro p ht
    have hlt : eyone node e < eytwo node e := by
      rcases ht with ⟨_, h1, h2⟩ | ⟨_, _, _, _, h1, h2⟩ <;> exact h1.trans_lt h2
    rw [hy] at hlt
    exact lt_irrefl _ hlt
  refine ⟨hnot, fun p sj bj => ?_⟩
  rw [pointUpdate_eq]
  by_cases hb : bj
  · left
    rw [if_pos hb]
  · rw [if_neg hb]
    by_cases hl : latchP node feps veps e p
    · right
      rw [if_pos hl]
    · left
      rw [if_neg hl, if_neg (hnot p)]

/-- Witness for C10: a concrete zero-length edge on a one-node list. -/
theorem degenerate_edge_no_toggle_witness :
    ¬ toggleP [((0 : ℚ), (0 : ℚ))] 1 1 (0, 0) ((0 : ℚ), (0 : ℚ)) ∧
      (pointUpdate [((0 : ℚ), (0 : ℚ))] 1 1 (0, 0) ((0 : ℚ), (0 : ℚ)) (false, false) =
          (false, false) ∨
        pointUpdate [((0 : ℚ), (0 : ℚ))] 1 1 (0, 0) ((0 : ℚ), (0 : ℚ)) (false, false) =
          (true, true)) := by
  have t := degenerate_edge_no_toggle [((0 : ℚ), (0 : ℚ))] 1 1 (0, 0) rfl
  exact ⟨t.1 _, t.2 _ false false⟩

/-! ### C9: the candidate window of an edge is exactly the searchsorted range -/

lemma sorted_getD_mono (ys : List ℚ) (hs : List.Sorted (· ≤ ·) ys) {i j : ℕ}
    (hij : i ≤ j) (hj : j < ys.length) : ys.getD i 0 ≤ ys.getD j 0 := by
  rcases Nat.eq_or_lt_of_le hij with rfl | hlt
  · exact le_refl _
  · rw [List.getD_eq_getElem _ _ (lt_of_le_of_lt hij hj), List.getD_eq_getElem _ _ hj]
    have := List.pairwise_iff_get.mp hs ⟨i, lt_of_le_of_lt hij hj⟩ ⟨j, hj⟩ hlt
    simpa using this

lemma searchsortedLeftGo_spec (ys : List ℚ) (v : ℚ) (hs : List.Sorted (· ≤ ·) ys) :
    ∀ (fuel lo hi : ℕ), lo ≤ hi → hi ≤ ys.length → hi - lo ≤ fuel →
      (∀ i, i < lo → ys.getD i 0 < v) →
      (∀ i, hi ≤ i → i < ys.length → v ≤ ys.getD i 0) →
      lo ≤ searchsortedLeftGo ys v fuel lo hi ∧
      searchsortedLeftGo ys v fuel lo hi ≤ hi ∧
      (∀ i, i < searchsortedLeftGo ys v fuel lo hi → ys.getD i 0 < v) ∧
      (∀ i, searchsortedLeftGo ys v fuel lo hi ≤ i → i < ys.length → v ≤ ys.getD i 0) := by
  intro fuel
  induction fuel with
  | zero =>
    intro lo hi hlohi hhi hfuel hlow hhigh
    have heq : lo = hi := by omega
    subst heq
    exact ⟨le_refl _, le_refl _, hlow, fun i h1 h2 => hhigh i h1 h2⟩
  | succ fuel ih =>
    intro lo hi hlohi hhi hfuel hlow hhigh
    rw [searchsortedLeftGo]
    by_cases hlt : lo < hi
    · rw [if_pos hlt]
      have hmid1 : lo ≤ (lo + hi) / 2 := by omega
      have hmid2 : (lo + hi) / 2 < hi := by omega
      by_cases hval : ys.getD ((lo + hi) / 2) 0 < v
      · rw [if_pos hval]
        have hnewlow : ∀ i, i < (lo + hi) / 2 + 1 → ys.getD i 0 < v := by
          intro i hi2
          exact lt_of_le_of_lt (sorted_getD_mono ys hs (by omega) (by omega)) hval
        obtain ⟨h1, h2, h3, h4⟩ := ih ((lo + hi) / 2 + 1) hi (by omega) hhi (by omega) hnewlow hhigh
        exact ⟨by omega, h2, h3, h4⟩
      · rw [if_neg hval]
        have hnewhigh : ∀ i, (lo + hi) / 2 ≤ i → i < ys.length → v ≤ ys.getD i 0 := by
          intro i hi2 hi3
          exact le_trans (not_lt.mp hval) (sorted_getD_mono ys hs hi2 hi3)
        obtain ⟨h1, h2, h3, h4⟩ := ih lo ((lo + hi) / 2) (by omega) (by omega) (by omega) hlow hnewhigh
        exact ⟨h1, by omega, h3, h4⟩
    · rw [if_neg hlt]
      have heq : lo = hi := by omega
      exact ⟨le_refl _, hlohi, hlow, fun i h1 h2 => hhigh i (by omega) h2⟩

lemma searchsortedRightGo_spec (ys : List ℚ) (v : ℚ) (hs : List.Sorted (· ≤ ·) ys) :
    ∀ (fuel lo hi : ℕ), lo ≤ hi → hi ≤ ys.length → hi - lo ≤ fuel →
      (∀ i, i < lo → ys.getD i 0 ≤ v) →
      (∀ i, hi ≤ i → i < ys.length → v < ys.getD i 0) →
      lo ≤ searchsortedRightGo ys v fuel lo hi ∧
      searchsortedRightGo ys v fuel lo hi ≤ hi ∧
      (∀ i, i < searchsortedRightGo ys v fuel lo hi → ys.getD i 0 ≤ v) ∧
      (∀ i, searchsortedRightGo ys v fuel lo hi ≤ i → i < ys.length → v < ys.getD i 0) := by
  intro fuel
  induction fuel with
  | zero =>
    intro lo hi hlohi hhi hfuel hlow hhigh
    have heq : lo = hi := by omega
    subst heq
    exact ⟨le_refl _, le_refl _, hlow, fun i h1 h2 => hhigh i h1 h2⟩
  | succ fuel ih =>
    intro lo hi hlohi hhi hfuel hlow hhigh
    rw [searchsortedRightGo]
    by_cases hlt : lo < hi
    · rw [if_pos hlt]
      have hmid1 : lo ≤ (lo + hi) / 2 := by omega
      have hmid2 : (lo + hi) / 2 < hi := by omega
      by_cases hval : ys.getD ((lo + hi) / 2) 0 ≤ v
      · rw [if_pos hval]
        have hnewlow : ∀ i, i < (lo + hi) / 2 + 1 → ys.getD i 0 ≤ v := by
          intro i hi2
          exact le_trans (sorted_getD_mono ys hs (by omega) (by omega)) hval
        obtain ⟨h1, h2, h3, h4⟩ := ih ((lo + hi) / 2 + 1) hi (by omega) hhi (by omega) hnewlow hhigh
        exact ⟨by omega, h2, h3, h4⟩
      · rw [if_neg hval]
        have hnewhigh : ∀ i, (lo + hi) / 2 ≤ i → i < ys.length → v < ys.getD i 0 := by
          intro i hi2 hi3
          exact lt_of_lt_of_le (not_le.mp hval) (sorted_getD_mono ys hs hi2 hi3)
        obtain ⟨h1, h2, h3, h4⟩ := ih lo ((lo + hi) / 2) (by omega) (by omega) (by omega) hlow hnewhigh
        exact ⟨h1, by omega, h3, h4⟩
    · rw [if_neg hlt]
      exact ⟨le_refl _, hlohi, hlow, fun i h1 h2 => hhigh i (by omega) h2⟩

lemma searchsortedLeft_spec (ys : List ℚ) (v : ℚ) (hs : List.Sorted (· ≤ ·) ys) :
    searchsortedLeft ys v ≤ ys.length ∧
    (∀ i, i < searchsortedLeft ys v → ys.getD i 0 < v) ∧
    (∀ i, searchsortedLeft ys v ≤ i → i < ys.length → v ≤ ys.getD i 0) := by
  obtain ⟨h1, h2, h3, h4⟩ := searchsortedLeftGo_spec ys v hs ys.length 0 ys.length
    (Nat.zero_le _) (le_refl _) (by omega) (fun i h => absurd h (Nat.not_lt_zero i))
    (fun i h1 h2 => absurd (lt_of_le_of_lt h1 h2) (lt_irrefl _))
  exact ⟨h2, h3, h4⟩

lemma searchsortedRight_spec (ys : List ℚ) (v : ℚ) (hs : List.Sorted (· ≤ ·) ys) :
    searchsortedRight ys v ≤ ys.length ∧
    (∀ i, i < searchsortedRight ys v → ys.getD i 0 ≤ v) ∧
    (∀ i, searchsortedRight ys v ≤ i → i < ys.length → v < ys.getD i 0) := by
  obtain ⟨h1, h2, h3, h4⟩ := searchsortedRightGo_spec ys v hs ys.length 0 ys.length
    (Nat.zero_le _) (le_refl _) (by omega) (fun i h => absurd h (Nat.not_lt_zero i))
    (fun i h1 h2 => absurd (lt_of_le_of_lt h1 h2) (lt_irrefl _))
  exact ⟨h2, h3, h4⟩

/-- C9: over a y-sorted query array, the candidate window [ione, itwo)
computed by the two binary searches of lines 162-163 is exact:
ione is the first index whose y is at least ymin = yone - veps (every
earlier y is strictly below ymin), itwo is the first index whose y
strictly exceeds ymax = ytwo + veps (every earlier y is at most ymax),
an index j lies in the window iff its y lies in [ymin, ymax], and the
kernel leaves every position outside the window untouched. -/
theorem edgeWindow_exact (vert node : List Pt) (veps : ℚ) (e : ℕ × ℕ)
    (hs : List.Sorted (· ≤ ·) (vert.map Prod.snd)) :
    ((edgeWindow vert node veps e).1 ≤ vert.length ∧
      (∀ i, i < (edgeWindow vert node veps e).1 →
        (vert.map Prod.snd).getD i 0 < eyone node e - veps) ∧
      ((edgeWindow vert node veps e).1 < vert.length →
        eyone node e - veps ≤ (vert.map Prod.snd).getD (edgeWindow vert node veps e).1 0)) ∧
    ((edgeWindow vert node veps e).2 ≤ vert.length ∧
      (∀ i, i < (edgeWindow vert node veps e).2 →
        (vert.map Prod.snd).getD i 0 ≤ eytwo node e + veps) ∧
      ((edgeWindow vert node veps e).2 < vert.length →
        eytwo node e + veps < (vert.map Prod.snd).getD (edgeWindow vert node veps e).2 0)) ∧
    (∀ j, j < vert.length →
      (((edgeWindow vert node veps e).1 ≤ j ∧ j < (edgeWindow vert node veps e).2) ↔
        (eyone node e - veps ≤ (vert.map Prod.snd).getD j 0 ∧
          (vert.map Prod.snd).getD j 0 ≤ eytwo node e + veps))) ∧
    (∀ (feps : ℚ) (sb : List Bool × List Bool) (j : ℕ),
      ¬ ((edgeWindow vert node veps e).1 ≤ j ∧ j < (edgeWindow vert node veps e).2) →
      stepPoint vert node feps veps e sb j = (sb.1.getD j false, sb.2.getD j false)) := by
  have hlen : (vert.map Prod.snd).length = vert.length := List.length_map _ _
  have hL := searchsortedLeft_spec (vert.map Prod.snd) (eyone node e - veps) hs
  have hR := searchsortedRight_spec (vert.map Prod.snd) (eytwo node e + veps) hs
  have hw1 : (edgeWindow vert node veps e).1 =
      searchsortedLeft (vert.map Prod.snd) (eyone node e - veps) := rfl
  have hw2 : (edgeWindow vert node veps e).2 =
      searchsortedRight (vert.map Prod.snd) (eytwo node e + veps) := rfl
  refine ⟨⟨?_, ?_, ?_⟩, ⟨?_, ?_, ?_⟩, ?_, ?_⟩
  · rw [hw1]
    have := hL.1
    omega
  · intro i hi
    rw [hw1] at hi
    exact hL.2.1 i hi
  · intro hlt
    rw [hw1] at hlt ⊢
    exact hL.2.2 _ (le_refl _) (by omega)
  · rw [hw2]
    have := hR.1
    omega
  · intro i hi
    rw [hw2] at hi
    exact hR.2.1 i hi
  · intro hlt
    rw [hw2] at hlt ⊢
    exact hR.2.2 _ (le_refl _) (by omega)
  · intro j hj
    rw [hw1, hw2]
    constructor
    · rintro ⟨h1, h2⟩
      exact ⟨hL.2.2 j h1 (by omega), hR.2.1 j h2⟩
    · rintro ⟨h1, h2⟩
      constructor
      · by_contra hc
        exact absurd h1 (not_le.mpr (hL.2.1 j (by omega)))
      · by_contra hc
        exact absurd h2 (not_le.mpr (hR.2.2 j (by omega) (by omega)))
  · intro feps sb j hj
    rw [stepPoint, if_neg hj]

example : List.Sorted (· ≤ ·) ([((0:ℚ), (0:ℚ)), ((1:ℚ), (1:ℚ))].map Prod.snd) := by
  simp [List.sorted_cons]

theorem edgeWindow_exact_witness :
    List.Sorted (· ≤ ·) ([((0 : ℚ), (0 : ℚ)), ((1 : ℚ), (1 : ℚ))].map Prod.snd) ∧
    ∀ j, j < ([((0 : ℚ), (0 : ℚ)), ((1 : ℚ), (1 : ℚ))] : List Pt).length →
      (((edgeWindow [((0 : ℚ), (0 : ℚ)), ((1 : ℚ), (1 : ℚ))]
            [((0 : ℚ), (0 : ℚ)), ((1 : ℚ), (1 : ℚ))] 0 (0, 1)).1 ≤ j ∧
        j < (edgeWindow [((0 : ℚ), (0 : ℚ)), ((1 : ℚ), (1 : ℚ))]
            [((0 : ℚ), (0 : ℚ)), ((1 : ℚ), (1 : ℚ))] 0 (0, 1)).2) ↔
       (eyone [((0 : ℚ), (0 : ℚ)), ((1 : ℚ), (1 : ℚ))] (0, 1) - 0 ≤
          ([((0 : ℚ), (0 : ℚ)), ((1 : ℚ), (1 : ℚ))].map Prod.snd).getD j 0 ∧
        ([((0 : ℚ), (0 : ℚ)), ((1 : ℚ), (1 : ℚ))].map Prod.snd).getD j 0 ≤
          eytwo [((0 : ℚ), (0 : ℚ)), ((1 : ℚ), (1 : ℚ))] (0, 1) + 0)) := by
  have hs : List.Sorted (· ≤ ·) ([((0 : ℚ), (0 : ℚ)), ((1 : ℚ), (1 : ℚ))].map Prod.snd) := by
    simp [List.sorted_cons]
  exact ⟨hs, (edgeWindow_exact _ _ _ _ hs).2.2.1⟩

/-! ### C8: edge-order independence of the kernel -/

/-- Per-index latch test: j is in the candidate window of edge e and its
point passes the boundary-latch branch. -/
def latchIdx (vert node : List Pt) (feps veps : ℚ) (e : ℕ × ℕ) (j : ℕ) : Bool :=
  decide ((edgeWindow vert node veps e).1 ≤ j) &&
  decide (j < (edgeWindow vert node veps e).2) &&
  decide (latchP node feps veps e (vert.getD j (0, 0)))

/-- Per-index toggle test: j is in the candidate window of edge e and its
point passes one of the two crossing-number toggle branches. -/
def toggleIdx (vert node : List Pt) (feps veps : ℚ) (e : ℕ × ℕ) (j : ℕ) : Bool :=
  decide ((edgeWindow vert node veps e).1 ≤ j) &&
  decide (j < (edgeWindow vert node veps e).2) &&
  decide (toggleP node feps veps e (vert.getD j (0, 0)))

/-- One edge, one position, in closed form. -/
lemma stepPoint_closed (vert node : List Pt) (feps veps : ℚ) (e : ℕ × ℕ)
    (sb : List Bool × List Bool) (j : ℕ) :
    stepPoint vert node feps veps e sb j =
      (if sb.2.getD j false then sb.1.getD j false
       else if latchIdx vert node feps veps e j then true
       else xor (toggleIdx vert node feps veps e j) (sb.1.getD j false),
       sb.2.getD j false || latchIdx vert node feps veps e j) := by
  rw [stepPoint]
  by_cases hw : (edgeWindow vert node veps e).1 ≤ j ∧ j < (edgeWindow vert node veps e).2
  · rw [if_pos hw, pointUpdate_eq]
    obtain ⟨hw1, hw2⟩ := hw
    by_cases hb : sb.2.getD j false
    · simp_all [latchIdx, toggleIdx]
    · by_cases hl : latchP node feps veps e (vert.getD j (0, 0))
      · simp_all [latchIdx, toggleIdx]
      · by_cases ht : toggleP node feps veps e (vert.getD j (0, 0))
        · simp_all [latchIdx, toggleIdx]
        · simp_all [latchIdx, toggleIdx]
  · rw [if_neg hw]
    have hlf : latchIdx vert node feps veps e j = false := by
      simp only [latchIdx]
      rcases not_and_or.mp hw with hc | hc <;> simp [hc]
    have htf : toggleIdx vert node feps veps e j = false := by
      simp only [toggleIdx]
      rcases not_and_or.mp hw with hc | hc <;> simp [hc]
    rw [hlf, htf]
    by_cases hb : sb.2.getD j false <;> simp [hb]

/-- Some edge of the list latches position j. -/
def latchAny (vert node : List Pt) (feps veps : ℚ) (edges : List (ℕ × ℕ)) (j : ℕ) : Bool :=
  edges.any fun e => latchIdx vert node feps veps e j

/-- The parity of the toggles of position j over the edge list, folded
onto an initial value. -/
def toggleFold (vert node : List Pt) (feps veps : ℚ) (edges : List (ℕ × ℕ)) (j : ℕ)
    (s0 : Bool) : Bool :=
  edges.foldr (fun e a => xor (toggleIdx vert node feps veps e j) a) s0

/-- Final inside flag of position j after folding the whole edge list
from per-position initial flags sf, bf. -/
def finalStat (vert node : List Pt) (feps veps : ℚ) (edges : List (ℕ × ℕ))
    (sf bf : ℕ → Bool) (j : ℕ) : Bool :=
  if bf j then sf j
  else if latchAny vert node feps veps edges j then true
  else toggleFold vert node feps veps edges j (sf j)

/-- Final on-boundary flag of position j. -/
def finalBnds (vert node : List Pt) (feps veps : ℚ) (edges : List (ℕ × ℕ))
    (bf : ℕ → Bool) (j : ℕ) : Bool :=
  bf j || latchAny vert node feps veps edges j

lemma toggleFold_xor_init (vert node : List Pt) (feps veps : ℚ) (j : ℕ) :
    ∀ (edges : List (ℕ × ℕ)) (t s : Bool),
      toggleFold vert node feps veps edges j (xor t s) =
        xor t (toggleFold vert node feps veps edges j s) := by
  have hcomm : ∀ a b c : Bool, xor a (xor b c) = xor b (xor a c) := by decide
  intro edges
  induction edges with
  | nil => intro t s; rfl
  | cons e es ih =>
    intro t s
    simp only [toggleFold, List.foldr_cons] at ih ⊢
    rw [ih, hcomm]

lemma stepEdge_map (vert node : List Pt) (feps veps : ℚ) (e : ℕ × ℕ) (sf bf : ℕ → Bool) :
    stepEdge vert node feps veps e
        ((List.range vert.length).map sf, (List.range vert.length).map bf) =
      ((List.range vert.length).map fun j =>
         if bf j then sf j
         else if latchIdx vert node feps veps e j then true
         else xor (toggleIdx vert node feps veps e j) (sf j),
       (List.range vert.length).map fun j => bf j || latchIdx vert node feps veps e j) := by
  rw [stepEdge]
  have hkey : ∀ j, j ∈ List.range vert.length →
      stepPoint vert node feps veps e
        ((List.range vert.length).map sf, (List.range vert.length).map bf) j =
      (if bf j then sf j
       else if latchIdx vert node feps veps e j then true
       else xor (toggleIdx vert node feps veps e j) (sf j),
       bf j || latchIdx vert node feps veps e j) := by
    intro j hj
    rw [List.mem_range] at hj
    rw [stepPoint_closed]
    rw [map_range_getD, map_range_getD, if_pos hj, if_pos hj]
  refine Prod.ext ?_ ?_
  · simp only []
    apply List.map_congr_left
    intro j hj
    rw [hkey j hj]
  · simp only []
    apply List.map_congr_left
    intro j hj
    rw [hkey j hj]

lemma foldl_stepEdge_closed (vert node : List Pt) (feps veps : ℚ) :
    ∀ (edges : List (ℕ × ℕ)) (sf bf : ℕ → Bool),
      edges.foldl (fun sb e => stepEdge vert node feps veps e sb)
          ((List.range vert.length).map sf, (List.range vert.length).map bf) =
        ((List.range vert.length).map fun j => finalStat vert node feps veps edges sf bf j,
         (List.range vert.length).map fun j => finalBnds vert node feps veps edges bf j) := by
  intro edges
  induction edges with
  | nil =>
    intro sf bf
    rw [List.foldl_nil]
    refine Prod.ext ?_ ?_ <;> simp only [] <;> apply List.map_congr_left <;> intro j hj <;>
      simp [finalStat, finalBnds, latchAny, toggleFold]
  | cons e es ih =>
    intro sf bf
    rw [List.foldl_cons, stepEdge_map, ih]
    have hstat : ∀ j,
        finalStat vert node feps veps es
          (fun j => if bf j then sf j
            else if latchIdx vert node feps veps e j then true
            else xor (toggleIdx vert node feps veps e j) (sf j))
          (fun j => bf j || latchIdx vert node feps veps e j) j =
        finalStat vert node feps veps (e :: es) sf bf j := by
      intro j
      by_cases hb : bf j
      · simp [finalStat, hb]
      · by_cases hl : latchIdx vert node feps veps e j
        · simp [finalStat, finalBnds, latchAny, hb, hl, List.any_cons]
        · simp only [finalStat, finalBnds, latchAny, List.any_cons, hb, hl, Bool.false_or,
            Bool.or_false, if_false]
          by_cases ha : es.any fun x => latchIdx vert node feps veps x j
          · simp [ha]
          · simp only [ha, if_false, Bool.false_eq_true]
            simp only [toggleFold, List.foldr_cons]
            rw [← toggleFold, ← toggleFold, toggleFold_xor_init]
    have hbnds : ∀ j,
        finalBnds vert node feps veps es (fun j => bf j || latchIdx vert node feps veps e j) j =
        finalBnds vert node feps veps (e :: es) bf j := by
      intro j
      simp [finalBnds, latchAny, List.any_cons, Bool.or_assoc]
    refine Prod.ext ?_ ?_ <;> simp only [] <;> apply List.map_congr_left <;> intro j hj
    · rw [hstat j]
    · rw [hbnds j]

/-- The kernel output in closed form from the all-false initial state. -/
lemma _inpoly_closed (vert node : List Pt) (edges : List (ℕ × ℕ)) (ftol lbar : ℚ) :
    _inpoly vert node edges ftol lbar =
      ((List.range vert.length).map fun j =>
         finalStat vert node (ftol * (lbar * lbar)) (ftol * lbar) edges
           (fun _ => false) (fun _ => false) j,
       (List.range vert.length).map fun j =>
         finalBnds vert node (ftol * (lbar * lbar)) (ftol * lbar) edges (fun _ => false) j) := by
  rw [_inpoly]
  have hrep : List.replicate vert.length (false : Bool) =
      (List.range vert.length).map fun _ => false := by
    rw [List.map_const', List.length_range]
  rw [hrep, foldl_stepEdge_closed]

lemma any_perm {α : Type} (p : α → Bool) {l l' : List α} (h : l.Perm l') :
    l.any p = l'.any p := by
  have hcomm : ∀ a b c : Bool, (a || (b || c)) = (b || (a || c)) := by decide
  induction h with
  | nil => rfl
  | cons x h ih => simp only [List.any_cons, ih]
  | swap x y l => simp only [List.any_cons]; rw [hcomm]
  | trans h1 h2 ih1 ih2 => exact ih1.trans ih2

lemma foldr_xor_perm {α : Type} (f : α → Bool) {l l' : List α} (h : l.Perm l') (init : Bool) :
    l.foldr (fun e a => xor (f e) a) init = l'.foldr (fun e a => xor (f e) a) init := by
  have hcomm : ∀ a b c : Bool, xor a (xor b c) = xor b (xor a c) := by decide
  induction h with
  | nil => rfl
  | cons x h ih => simp only [List.foldr_cons, ih]
  | swap x y l => simp only [List.foldr_cons]; rw [hcomm]
  | trans h1 h2 ih1 ih2 => exact ih1.trans ih2

/-- C8: the kernel output is invariant under any permutation of the edge
rows.  Per position, the final on-boundary flag is (whether any edge
latches it) and the final inside flag is true when latched and otherwise
the XOR of its toggles, both invariant under reordering: parity toggles
commute, and a latched point ends at (true, true) no matter which
qualifying edge latched it first. -/
theorem _inpoly_edge_perm_invariant (vert node : List Pt) (ftol lbar : ℚ)
    (edges edgesB : List (ℕ × ℕ)) (h : edges.Perm edgesB) :
    _inpoly vert node edges ftol lbar = _inpoly vert node edgesB ftol lbar := by
  rw [_inpoly_closed, _inpoly_closed]
  have hlatch : ∀ j, latchAny vert node (ftol * (lbar * lbar)) (ftol * lbar) edges j =
      latchAny vert node (ftol * (lbar * lbar)) (ftol * lbar) edgesB j := by
    intro j
    exact any_perm _ h
  have htog : ∀ j s0, toggleFold vert node (ftol * (lbar * lbar)) (ftol * lbar) edges j s0 =
      toggleFold vert node (ftol * (lbar * lbar)) (ftol * lbar) edgesB j s0 := by
    intro j s0
    exact foldr_xor_perm _ h s0
  refine Prod.ext ?_ ?_ <;> simp only [] <;> apply List.map_congr_left <;> intro j hj
  · simp only [finalStat, hlatch j, htog j]
  · simp only [finalBnds, hlatch j]

/-- Witness for C8: two concrete mutually reversed edge lists. -/
theorem _inpoly_edge_perm_invariant_witness :
    _inpoly [((0 : ℚ), (0 : ℚ))] [((0 : ℚ), (0 : ℚ)), ((1 : ℚ), (1 : ℚ))] [(0, 1), (1, 0)] 1 1 =
      _inpoly [((0 : ℚ), (0 : ℚ))] [((0 : ℚ), (0 : ℚ)), ((1 : ℚ), (1 : ℚ))] [(1, 0), (0, 1)] 1 1 :=
  _inpoly_edge_perm_invariant _ _ _ _ _ _ (List.Perm.swap _ _ _)
